import Mathlib

/-
Verification of the xdg-desktop-entries library (src/lib.rs): a line-oriented
raw parser producing a group -> key -> value mapping, and a typed projection
into one of three desktop-entry variants.

HashMaps are modelled as association lists with update-in-place insertion
(extensionally the same mapping behaviour); strings are handled through their
character lists so that the byte-slicing and splitting done by the Rust code
is captured faithfully (all slicing in the source happens at ASCII
delimiters, where byte indices and character indices coincide).
-/

/-- Error type of the library. `IoError` wraps a failure of the file read,
which lies outside this pure model; `FormatError` carries a message. -/
inductive Error where
  | IoError : Error
  | FormatError : String → Error
  deriving DecidableEq

/-- The inner `HashMap<String, String>` of a group, as an association list. -/
abbrev KVMap := List (String × String)

/-- `RawDesktopEntry = HashMap<String, HashMap<String, String>>`. -/
abbrev RawDesktopEntry := List (String × KVMap)

/-- `HashMap::insert` on the inner map: overwrite the binding of `k` if
present, otherwise add it. -/
def kvInsert : KVMap → String → String → KVMap
  | [], k, v => [(k, v)]
  | (k', v') :: rest, k, v =>
    if k' = k then (k, v) :: rest else (k', v') :: kvInsert rest k v

/-- `HashMap::get` on the inner map. -/
def kvGet : KVMap → String → Option String
  | [], _ => none
  | (k', v) :: rest, k => if k' = k then some v else kvGet rest k

/-- `groups.entry(name).or_insert_with(HashMap::new).insert(k, v)`:
insert `k -> v` into the group called `name`, creating it if absent. -/
def rawInsert : RawDesktopEntry → String → String → String → RawDesktopEntry
  | [], name, k, v => [(name, [(k, v)])]
  | (n, m) :: rest, name, k, v =>
    if n = name then (n, kvInsert m k v) :: rest
    else (n, m) :: rawInsert rest name k v

/-- `HashMap::get` on the outer map. -/
def rawGet : RawDesktopEntry → String → Option KVMap
  | [], _ => none
  | (n, m) :: rest, name => if n = name then some m else rawGet rest name

/-- Character-level scan behind `line.splitn(2, '=')`: the characters before
the first `=`, and, when an `=` is present, the characters after it. -/
def splitn2Chars : List Char → List Char × Option (List Char)
  | [] => ([], none)
  | c :: rest =>
    if c = '=' then ([], some rest)
    else
      let (pre, suf) := splitn2Chars rest
      (c :: pre, suf)

/-- `line.splitn(2, '=').collect::<Vec<_>>()`: one part when the line has no
`=`, otherwise the part before the first `=` and the whole remainder. -/
def splitn2Eq (line : String) : List String :=
  match splitn2Chars line.data with
  | (pre, none) => [String.mk pre]
  | (pre, some suf) => [String.mk pre, String.mk suf]

/-- Rust `char::is_whitespace`: the Unicode White_Space property — tab
through carriage return (U+0009..U+000D), space, next line (U+0085),
no-break space (U+00A0), Ogham space mark (U+1680), the U+2000..U+200A
spaces, line and paragraph separators (U+2028, U+2029), narrow no-break
space (U+202F), medium mathematical space (U+205F) and ideographic space
(U+3000). -/
def rustIsWhitespace (c : Char) : Bool :=
  decide ((0x09 ≤ c.toNat ∧ c.toNat ≤ 0x0D) ∨ c.toNat = 0x20 ∨
    c.toNat = 0x85 ∨ c.toNat = 0xA0 ∨ c.toNat = 0x1680 ∨
    (0x2000 ≤ c.toNat ∧ c.toNat ≤ 0x200A) ∨ c.toNat = 0x2028 ∨
    c.toNat = 0x2029 ∨ c.toNat = 0x202F ∨ c.toNat = 0x205F ∨
    c.toNat = 0x3000)

/-- Drop leading and trailing Unicode-whitespace characters
(Rust `str::trim`). -/
def trimChars (cs : List Char) : List Char :=
  ((cs.dropWhile rustIsWhitespace).reverse.dropWhile rustIsWhitespace).reverse

/-- Rust `str::trim` as a string-to-string function. -/
def rustTrim (s : String) : String := String.mk (trimChars s.data)

/-- `line[1..line.len() - 1]` for a header line `[Name]`: the text between
the brackets (the bracket delimiters are single-byte, so byte slicing agrees
with character slicing). -/
def headerName (line : String) : String := String.mk ((line.data.drop 1).dropLast)

/-- One iteration of the `for line in content.lines()` loop of
`parse_desktop_entry_raw`. The state is the accumulated groups map together
with the current group name (initially the empty string). -/
def parseLine (st : RawDesktopEntry × String) (line : String) :
    Except Error (RawDesktopEntry × String) :=
  if line.data = [] ∨ line.data.head? = some '#' then
    Except.ok st
  else if line.data.head? = some '[' ∧ line.data.getLast? = some ']' then
    Except.ok (st.1, headerName line)
  else if st.2 = "" then
    Except.error (Error.FormatError "Entry found outside of group")
  else
    match splitn2Eq line with
    | [k, v] => Except.ok (rawInsert st.1 st.2 (rustTrim k) (rustTrim v), st.2)
    | _ => Except.error (Error.FormatError "Entry not key/value")

/-- The parsing loop of `parse_desktop_entry_raw`, run from an arbitrary
state over a list of lines. -/
def parseAux (st : RawDesktopEntry × String) (lines : List String) :
    Except Error (RawDesktopEntry × String) :=
  lines.foldlM parseLine st

/-- The text-level body of `parse_desktop_entry_raw`: run the loop over the
lines of the input from the initial state (no groups, empty current group)
and return the accumulated mapping. -/
def parseLines (lines : List String) : Except Error RawDesktopEntry :=
  (parseAux ([], "") lines).map Prod.fst

/-- Split a character list at each newline, keeping every part (including
empty ones); the backbone of Rust `str::lines`. -/
def splitLinesChars : List Char → List (List Char)
  | [] => [[]]
  | c :: rest =>
    if c = '\n' then [] :: splitLinesChars rest
    else
      match splitLinesChars rest with
      | [] => [[c]]
      | l :: ls => (c :: l) :: ls

/-- Strip one trailing carriage return (applied by Rust `str::lines` to each
newline-terminated line, turning `\r\n` endings into plain line breaks). -/
def stripCr (cs : List Char) : List Char :=
  if cs.getLast? = some '\x0d' then cs.dropLast else cs

/-- Rust `content.lines()`: split at `\n`, strip a trailing `\r` from every
newline-terminated line, and drop the final part when it is empty (a final
line terminator produces no extra empty line). -/
def rustLines (content : String) : List String :=
  let parts := splitLinesChars content.data
  let terminated := parts.dropLast.map stripCr
  let last := (parts.getLast?).getD []
  (if last = [] then terminated else terminated ++ [last]).map String.mk

/-- `parse_desktop_entry_raw`, given the text content of the file (the file
read itself, which can only add an `IoError`, is outside this model). -/
def parse_desktop_entry_raw (content : String) : Except Error RawDesktopEntry :=
  parseLines (rustLines content)

/-- `"true".parse::<bool>()` etc.: Rust `bool::from_str` accepts exactly
`"true"` and `"false"`. -/
def rustParseBool (s : String) : Option Bool :=
  if s = "true" then some true
  else if s = "false" then some false
  else none

/-- `value.parse().is_ok_and(|e| e)`: `true` exactly on a successful parse
yielding `true`. -/
def parseBoolOkAnd (value : String) : Bool :=
  (rustParseBool value).getD false

/-- `entry.get(key).map(|value| value.parse().is_ok_and(|e| e))`: the shared
extraction of every optional boolean field. -/
def getBool (entry : KVMap) (key : String) : Option Bool :=
  (kvGet entry key).map parseBoolOkAnd

structure ApplicationDesktopEntry where
  version : Option String
  name : String
  generic_name : Option String
  no_display : Option Bool
  comment : Option String
  icon : Option String
  hidden : Option Bool
  only_show_in : Option String
  not_show_in : Option String
  try_exec : Option String
  exec : Option String
  path : Option String
  terminal : Option Bool
  actions : Option String
  mime_type : Option String
  categories : Option String
  keywords : Option String
  startup_notify : Option Bool
  startup_wm_class : Option String
  prefers_non_default_gpu : Option Bool
  single_main_window : Option Bool
  deriving DecidableEq

structure LinkDesktopEntry where
  version : Option String
  name : String
  generic_name : Option String
  no_display : Option Bool
  comment : Option String
  icon : Option String
  hidden : Option Bool
  only_show_in : Option String
  not_show_in : Option String
  url : String
  deriving DecidableEq

structure DirectoryDesktopEntry where
  version : Option String
  name : String
  generic_name : Option String
  no_display : Option Bool
  comment : Option String
  icon : Option String
  hidden : Option Bool
  only_show_in : Option String
  not_show_in : Option String
  deriving DecidableEq

inductive DesktopEntryType where
  | Application : ApplicationDesktopEntry → DesktopEntryType
  | Link : LinkDesktopEntry → DesktopEntryType
  | Directory : DirectoryDesktopEntry → DesktopEntryType
  deriving DecidableEq

/-- `TryFrom<&HashMap<String, String>> for ApplicationDesktopEntry`: only a
missing `Name` fails; string fields are cloned, boolean fields go through
the lenient coercion. -/
def ApplicationDesktopEntry.tryFrom (entry : KVMap) :
    Except Error ApplicationDesktopEntry :=
  match kvGet entry "Name" with
  | none => Except.error (Error.FormatError "Missing required key \x27Name\x27")
  | some name =>
    Except.ok
      ⟨kvGet entry "Version", name, kvGet entry "GenericName",
       getBool entry "NoDisplay", kvGet entry "Comment", kvGet entry "Icon",
       getBool entry "Hidden", kvGet entry "OnlyShowIn",
       kvGet entry "NotShowIn", kvGet entry "TryExec", kvGet entry "Exec",
       kvGet entry "Path", getBool entry "Terminal", kvGet entry "Actions",
       kvGet entry "MimeType", kvGet entry "Categories",
       kvGet entry "Keywords", getBool entry "StartupNotify",
       kvGet entry "StartupWMClass", getBool entry "PrefersNonDefaultGPU",
       getBool entry "SingleMainWindow"⟩

/-- `TryFrom<&HashMap<String, String>> for LinkDesktopEntry`. The `Name`
field is evaluated before `URL` in the struct literal, so a missing `Name`
is reported first. -/
def LinkDesktopEntry.tryFrom (entry : KVMap) : Except Error LinkDesktopEntry :=
  match kvGet entry "Name" with
  | none => Except.error (Error.FormatError "Missing required key \x27Name\x27")
  | some name =>
    match kvGet entry "URL" with
    | none => Except.error (Error.FormatError "Missing required key \x27URL\x27")
    | some url =>
      Except.ok
        ⟨kvGet entry "Version", name, kvGet entry "GenericName",
         getBool entry "NoDisplay", kvGet entry "Comment", kvGet entry "Icon",
         getBool entry "Hidden", kvGet entry "OnlyShowIn",
         kvGet entry "NotShowIn", url⟩

/-- `TryFrom<&HashMap<String, String>> for DirectoryDesktopEntry`. -/
def DirectoryDesktopEntry.tryFrom (entry : KVMap) :
    Except Error DirectoryDesktopEntry :=
  match kvGet entry "Name" with
  | none => Except.error (Error.FormatError "Missing required key \x27Name\x27")
  | some name =>
    Except.ok
      ⟨kvGet entry "Version", name, kvGet entry "GenericName",
       getBool entry "NoDisplay", kvGet entry "Comment", kvGet entry "Icon",
       getBool entry "Hidden", kvGet entry "OnlyShowIn",
       kvGet entry "NotShowIn"⟩

/-- `TryFrom<RawDesktopEntry> for DesktopEntryType`: look up the group
`"Desktop Entry"`, then its `"Type"` key, and dispatch on the type value. -/
def DesktopEntryType.tryFrom (value : RawDesktopEntry) :
    Except Error DesktopEntryType :=
  match rawGet value "Desktop Entry" with
  | none => Except.error (Error.FormatError "Desktop entry group missing!")
  | some group =>
    match kvGet group "Type" with
    | none => Except.error (Error.FormatError "Entry type missing!")
    | some ty =>
      if ty = "Application" then
        (ApplicationDesktopEntry.tryFrom group).map DesktopEntryType.Application
      else if ty = "Link" then
        (LinkDesktopEntry.tryFrom group).map DesktopEntryType.Link
      else if ty = "Directory" then
        (DirectoryDesktopEntry.tryFrom group).map DesktopEntryType.Directory
      else
        Except.error (Error.FormatError ("Unknown entry type " ++ ty))

/-- `parse_desktop_entry`: raw parse, then typed projection. -/
def parse_desktop_entry (content : String) : Except Error DesktopEntryType :=
  (parse_desktop_entry_raw content).bind DesktopEntryType.tryFrom

/-- The trimmed key/value pairs of the property lines that occur under the
group named `n`, in line order, tracking the current group name `c` the way
the parser does. A line with no `=` contributes nothing (on such inputs the
parser fails, so the value is only consulted for successful parses). -/
def propsUnder (n c : String) : List String → List (String × String)
  | [] => []
  | l :: rest =>
    if l.data = [] ∨ l.data.head? = some '#' then propsUnder n c rest
    else if l.data.head? = some '[' ∧ l.data.getLast? = some ']' then
      propsUnder n (headerName l) rest
    else if c = n then
      (match splitn2Eq l with
       | [k, v] => [(rustTrim k, rustTrim v)]
       | _ => []) ++ propsUnder n c rest
    else propsUnder n c rest

/-- Replay a list of key/value pairs into a group's mapping by successive
insertion, starting from an absent (`none`) or existing group: `none` stays
`none` only when there is nothing to insert (the parser creates a group at
its first insertion). -/
def applyProps (m0 : Option KVMap) (ps : List (String × String)) : Option KVMap :=
  ps.foldl (fun acc p => some (kvInsert (acc.getD []) p.1 p.2)) m0

/-- Successive insertion of key/value pairs into an existing mapping. -/
def insertAll (m : KVMap) (ps : List (String × String)) : KVMap :=
  ps.foldl (fun acc p => kvInsert acc p.1 p.2) m

deriving instance DecidableEq for Except

/-- `splitn2Chars` returns the characters before the first `=`, and the
characters after it when one exists. -/
theorem splitn2Chars_spec (cs : List Char) :
    splitn2Chars cs =
      (cs.takeWhile (fun ch => ch != '='),
        if '=' ∈ cs then some ((cs.dropWhile (fun ch => ch != '=')).tail)
        else none) := by
  induction cs with
  | nil => simp [splitn2Chars]
  | cons c rest ih =>
    by_cases hc : c = '='
    · subst hc
      simp [splitn2Chars, List.takeWhile_cons, List.dropWhile_cons]
    · simp [splitn2Chars, ih, List.takeWhile_cons, List.dropWhile_cons, hc,
        Ne.symm hc]

theorem splitn2Eq_of_mem (line : String) (h : '=' ∈ line.data) :
    splitn2Eq line =
      [String.mk (line.data.takeWhile (fun ch => ch != '=')),
       String.mk ((line.data.dropWhile (fun ch => ch != '=')).tail)] := by
  simp [splitn2Eq, splitn2Chars_spec, h]

theorem splitn2Eq_of_not_mem (line : String) (h : ¬ '=' ∈ line.data) :
    splitn2Eq line = [String.mk (line.data.takeWhile (fun ch => ch != '='))] := by
  simp [splitn2Eq, splitn2Chars_spec, h]

theorem parseLine_skip (st : RawDesktopEntry × String) (line : String)
    (h : line.data = [] ∨ line.data.head? = some '#') :
    parseLine st line = Except.ok st := by
  unfold parseLine
  rw [if_pos h]

theorem parseLine_header (st : RawDesktopEntry × String) (line : String)
    (hns : ¬ (line.data = [] ∨ line.data.head? = some '#'))
    (hh : line.data.head? = some '[' ∧ line.data.getLast? = some ']') :
    parseLine st line = Except.ok (st.1, headerName line) := by
  unfold parseLine
  rw [if_neg hns, if_pos hh]

theorem parseLine_outside (st : RawDesktopEntry × String) (line : String)
    (hns : ¬ (line.data = [] ∨ line.data.head? = some '#'))
    (hnh : ¬ (line.data.head? = some '[' ∧ line.data.getLast? = some ']'))
    (hc : st.2 = "") :
    parseLine st line = Except.error (Error.FormatError "Entry found outside of group") := by
  unfold parseLine
  rw [if_neg hns, if_neg hnh, if_pos hc]

theorem parseLine_kv (st : RawDesktopEntry × String) (line : String)
    (hns : ¬ (line.data = [] ∨ line.data.head? = some '#'))
    (hnh : ¬ (line.data.head? = some '[' ∧ line.data.getLast? = some ']'))
    (hc : ¬ st.2 = "") (he : '=' ∈ line.data) :
    parseLine st line =
      Except.ok
        (rawInsert st.1 st.2
          (rustTrim (String.mk (line.data.takeWhile (fun ch => ch != '='))))
          (rustTrim (String.mk ((line.data.dropWhile (fun ch => ch != '=')).tail))),
         st.2) := by
  unfold parseLine
  rw [if_neg hns, if_neg hnh, if_neg hc, splitn2Eq_of_mem line he]

theorem parseLine_noeq (st : RawDesktopEntry × String) (line : String)
    (hns : ¬ (line.data = [] ∨ line.data.head? = some '#'))
    (hnh : ¬ (line.data.head? = some '[' ∧ line.data.getLast? = some ']'))
    (hc : ¬ st.2 = "") (he : ¬ '=' ∈ line.data) :
    parseLine st line = Except.error (Error.FormatError "Entry not key/value") := by
  unfold parseLine
  rw [if_neg hns, if_neg hnh, if_neg hc, splitn2Eq_of_not_mem line he]

theorem parseAux_nil (st : RawDesktopEntry × String) : parseAux st [] = Except.ok st :=
  rfl

theorem parseAux_cons_ok (st st' : RawDesktopEntry × String) (l : String)
    (ls : List String) (h : parseLine st l = Except.ok st') :
    parseAux st (l :: ls) = parseAux st' ls := by
  simp only [parseAux, List.foldlM, h]
  rfl

theorem parseAux_cons_error (st : RawDesktopEntry × String) (l : String)
    (ls : List String) (e : Error) (h : parseLine st l = Except.error e) :
    parseAux st (l :: ls) = Except.error e := by
  simp only [parseAux, List.foldlM, h]
  rfl

theorem parseAux_append (st : RawDesktopEntry × String) (xs ys : List String) :
    parseAux st (xs ++ ys) =
      (parseAux st xs).bind (fun st' => parseAux st' ys) := by
  induction xs generalizing st with
  | nil => cases parseAux st ys <;> simp [parseAux_nil, Except.bind]
  | cons x xs ih =>
    cases h : parseLine st x with
    | ok st' =>
      rw [List.cons_append, parseAux_cons_ok st st' x (xs ++ ys) h,
        parseAux_cons_ok st st' x xs h, ih]
    | error e =>
      rw [List.cons_append, parseAux_cons_error st x (xs ++ ys) e h,
        parseAux_cons_error st x xs e h]
      simp [Except.bind]

theorem parseLines_error_iff (lines : List String) (e : Error) :
    parseLines lines = Except.error e ↔ parseAux ([], "") lines = Except.error e := by
  unfold parseLines
  cases h : parseAux ([], "") lines <;> simp [Except.map]

theorem parseLines_ok_iff (lines : List String) (gs : RawDesktopEntry) :
    parseLines lines = Except.ok gs ↔
      ∃ c, parseAux ([], "") lines = Except.ok (gs, c) := by
  unfold parseLines
  cases h : parseAux ([], "") lines with
  | ok st =>
    cases st with
    | mk a c => simp [Except.map, eq_comm]
  | error e => simp [Except.map]

/-- The walk of the claimed failure condition, tracking the current group
name like the parser does: `false` exactly when some property line is
reached with an empty current group name or contains no `=`. -/
def goodLines (c : String) : List String → Bool
  | [] => true
  | l :: rest =>
    if l.data = [] ∨ l.data.head? = some '#' then goodLines c rest
    else if l.data.head? = some '[' ∧ l.data.getLast? = some ']' then
      goodLines (headerName l) rest
    else if c = "" then false
    else if '=' ∈ l.data then goodLines c rest
    else false

/-- The current group name after a list of lines has been scanned: headers
set it to the bracketed name, all other lines leave it unchanged. -/
def currentAfter (c : String) : List String → String
  | [] => c
  | l :: rest =>
    if l.data = [] ∨ l.data.head? = some '#' then currentAfter c rest
    else if l.data.head? = some '[' ∧ l.data.getLast? = some ']' then
      currentAfter (headerName l) rest
    else currentAfter c rest

/-- The good-input condition of claim C1 as originally stated, tracking only
whether some group header line has been seen: `true` when every property
line is preceded by some group header line and contains an `=`. -/
def noBadOrig (seenHeader : Bool) : List String → Bool
  | [] => true
  | l :: rest =>
    if l.data = [] ∨ l.data.head? = some '#' then noBadOrig seenHeader rest
    else if l.data.head? = some '[' ∧ l.data.getLast? = some ']' then
      noBadOrig true rest
    else (seenHeader && decide ('=' ∈ l.data)) && noBadOrig seenHeader rest

theorem parseAux_formatError_iff (lines : List String) :
    ∀ (gs : RawDesktopEntry) (c : String),
      (∃ msg, parseAux (gs, c) lines = Except.error (Error.FormatError msg)) ↔
        goodLines c lines = false := by
  induction lines with
  | nil =>
    intro gs c
    simp [parseAux_nil, goodLines]
  | cons l ls ih =>
    intro gs c
    by_cases hs : (l.data = [] ∨ l.data.head? = some '#')
    · simp only [parseAux_cons_ok (gs, c) (gs, c) l ls (parseLine_skip (gs, c) l hs)]
      simp only [goodLines]
      rw [if_pos hs]
      exact ih gs c
    · by_cases hh : (l.data.head? = some '[' ∧ l.data.getLast? = some ']')
      · simp only [parseAux_cons_ok (gs, c) (gs, headerName l) l ls
          (parseLine_header (gs, c) l hs hh)]
        simp only [goodLines]
        rw [if_neg hs, if_pos hh]
        exact ih gs (headerName l)
      · by_cases hc : c = ""
        · simp only [parseAux_cons_error (gs, c) l ls _
            (parseLine_outside (gs, c) l hs hh hc)]
          simp only [goodLines]
          rw [if_neg hs, if_neg hh, if_pos hc]
          simp
        · by_cases he : '=' ∈ l.data
          · simp only [parseAux_cons_ok (gs, c) _ l ls
              (parseLine_kv (gs, c) l hs hh hc he)]
            simp only [goodLines]
            rw [if_neg hs, if_neg hh, if_neg hc, if_pos he]
            exact ih _ c
          · simp only [parseAux_cons_error (gs, c) l ls _
              (parseLine_noeq (gs, c) l hs hh hc he)]
            simp only [goodLines]
            rw [if_neg hs, if_neg hh, if_neg hc, if_neg he]
            simp

theorem goodLines_false_iff (lines : List String) :
    ∀ c, goodLines c lines = false ↔
      ∃ pre l post, lines = pre ++ l :: post ∧
        ¬ (l.data = [] ∨ l.data.head? = some '#') ∧
        ¬ (l.data.head? = some '[' ∧ l.data.getLast? = some ']') ∧
        (currentAfter c pre = "" ∨ ¬ '=' ∈ l.data) := by
  induction lines with
  | nil =>
    intro c
    simp [goodLines]
  | cons x ls ih =>
    intro c
    by_cases hs : (x.data = [] ∨ x.data.head? = some '#')
    · rw [show goodLines c (x :: ls) = goodLines c ls from by
        simp only [goodLines]; rw [if_pos hs]]
      rw [ih c]
      constructor
      · rintro ⟨pre, l, post, heq, h1, h2, h3⟩
        refine ⟨x :: pre, l, post, by rw [heq, List.cons_append], h1, h2, ?_⟩
        rwa [show currentAfter c (x :: pre) = currentAfter c pre from by
          simp only [currentAfter]; rw [if_pos hs]]
      · rintro ⟨pre, l, post, heq, h1, h2, h3⟩
        cases pre with
        | nil =>
          rw [List.nil_append] at heq
          injection heq with hx hls
          exact absurd hs (hx ▸ h1)
        | cons y pre =>
          rw [List.cons_append] at heq
          injection heq with hx hls
          subst hx
          refine ⟨pre, l, post, hls, h1, h2, ?_⟩
          rwa [show currentAfter c (x :: pre) = currentAfter c pre from by
            simp only [currentAfter]; rw [if_pos hs]] at h3
    · by_cases hh : (x.data.head? = some '[' ∧ x.data.getLast? = some ']')
      · rw [show goodLines c (x :: ls) = goodLines (headerName x) ls from by
          simp only [goodLines]; rw [if_neg hs, if_pos hh]]
        rw [ih (headerName x)]
        constructor
        · rintro ⟨pre, l, post, heq, h1, h2, h3⟩
          refine ⟨x :: pre, l, post, by rw [heq, List.cons_append], h1, h2, ?_⟩
          rwa [show currentAfter c (x :: pre) = currentAfter (headerName x) pre from by
            simp only [currentAfter]; rw [if_neg hs, if_pos hh]]
        · rintro ⟨pre, l, post, heq, h1, h2, h3⟩
          cases pre with
          | nil =>
            rw [List.nil_append] at heq
            injection heq with hx hls
            exact absurd hh (hx ▸ h2)
          | cons y pre =>
            rw [List.cons_append] at heq
            injection heq with hx hls
            subst hx
            refine ⟨pre, l, post, hls, h1, h2, ?_⟩
            rwa [show currentAfter c (x :: pre) = currentAfter (headerName x) pre from by
              simp only [currentAfter]; rw [if_neg hs, if_pos hh]] at h3
      · by_cases hc : c = ""
        · rw [show goodLines c (x :: ls) = false from by
            simp only [goodLines]; rw [if_neg hs, if_neg hh, if_pos hc]]
          constructor
          · intro _
            exact ⟨[], x, ls, rfl, hs, hh, Or.inl hc⟩
          · intro _
            rfl
        · by_cases he : '=' ∈ x.data
          · rw [show goodLines c (x :: ls) = goodLines c ls from by
              simp only [goodLines]; rw [if_neg hs, if_neg hh, if_neg hc, if_pos he]]
            rw [ih c]
            constructor
            · rintro ⟨pre, l, post, heq, h1, h2, h3⟩
              refine ⟨x :: pre, l, post, by rw [heq, List.cons_append], h1, h2, ?_⟩
              rwa [show currentAfter c (x :: pre) = currentAfter c pre from by
                simp only [currentAfter]; rw [if_neg hs, if_neg hh]]
            · rintro ⟨pre, l, post, heq, h1, h2, h3⟩
              cases pre with
              | nil =>
                rw [List.nil_append] at heq
                injection heq with hx hls
                subst hx
                rcases h3 with h3 | h3
                · exact absurd h3 hc
                · exact absurd he h3
              | cons y pre =>
                rw [List.cons_append] at heq
                injection heq with hx hls
                subst hx
                refine ⟨pre, l, post, hls, h1, h2, ?_⟩
                rwa [show currentAfter c (x :: pre) = currentAfter c pre from by
                  simp only [currentAfter]; rw [if_neg hs, if_neg hh]] at h3
          · rw [show goodLines c (x :: ls) = false from by
              simp only [goodLines]; rw [if_neg hs, if_neg hh, if_neg hc, if_neg he]]
            constructor
            · intro _
              exact ⟨[], x, ls, rfl, hs, hh, Or.inr he⟩
            · intro _
              rfl

/-- C1 (counterexample): on the input with lines `[]` and `a=b`, every
property line is preceded by a group header line and contains an `=`
(`noBadOrig false _ = true`), yet the raw parser fails with the
outside-of-group FormatError, because the header `[]` leaves the current
group name empty. This refutes both directions claimed: the parse fails
although no property line is header-less or `=`-less, and in particular an
input whose property lines are all preceded by headers and contain `=`
does fail with the outside-of-group error. -/
theorem c1_counterexample :
    noBadOrig false ["[]", "a=b"] = true ∧
      parseLines ["[]", "a=b"] =
        Except.error (Error.FormatError "Entry found outside of group") := by
  decide

/-- C1 (amended): the raw parser fails with a FormatError exactly when the
input contains a property line (non-empty, not starting with `#`, not a
group header) that either occurs while the current group name is empty —
before any group header, or after a most recent group header `[]` whose
bracketed name is empty — or contains no `=` character; in particular, for
every input in which each property line sits under a nonempty current
group name and contains an `=`, the parse does not fail. -/
theorem c1_raw_parse_fails_iff (lines : List String) :
    (∃ msg, parseLines lines = Except.error (Error.FormatError msg)) ↔
      ∃ pre l post, lines = pre ++ l :: post ∧
        ¬ (l.data = [] ∨ l.data.head? = some '#') ∧
        ¬ (l.data.head? = some '[' ∧ l.data.getLast? = some ']') ∧
        (currentAfter "" pre = "" ∨ ¬ '=' ∈ l.data) := by
  rw [show (∃ msg, parseLines lines = Except.error (Error.FormatError msg)) ↔
      (∃ msg, parseAux ([], "") lines = Except.error (Error.FormatError msg)) from by
    constructor
    · rintro ⟨msg, h⟩
      exact ⟨msg, (parseLines_error_iff lines _).mp h⟩
    · rintro ⟨msg, h⟩
      exact ⟨msg, (parseLines_error_iff lines _).mpr h⟩]
  rw [parseAux_formatError_iff lines [] ""]
  exact goodLines_false_iff lines ""

/-- C6: a property line containing at least one `=`, reached with a
nonempty current group, is split at the first `=` only: the key is the text
before the first `=` and the value is the whole remainder (which may itself
contain `=` characters), both trimmed of surrounding whitespace, and the
pair is inserted into the current group of the accumulated mapping. -/
theorem c6_first_eq_split (gs : RawDesktopEntry) (c : String) (line : String)
    (hns : ¬ (line.data = [] ∨ line.data.head? = some '#'))
    (hnh : ¬ (line.data.head? = some '[' ∧ line.data.getLast? = some ']'))
    (hc : ¬ c = "") (he : '=' ∈ line.data) :
    parseLine (gs, c) line =
      Except.ok
        (rawInsert gs c
          (rustTrim (String.mk (line.data.takeWhile (fun ch => ch != '='))))
          (rustTrim (String.mk ((line.data.dropWhile (fun ch => ch != '=')).tail))),
         c) :=
  parseLine_kv (gs, c) line hns hnh hc he

/-- C6 witness: the split of the concrete line ` a = b=c ` under group `G`. -/
theorem c6_first_eq_split_witness :
    parseLine ([], "G") " a = b=c " =
      Except.ok
        (rawInsert [] "G"
          (rustTrim (String.mk (" a = b=c ".data.takeWhile (fun ch => ch != '='))))
          (rustTrim (String.mk ((" a = b=c ".data.dropWhile (fun ch => ch != '=')).tail))),
         "G") ∧
      parseLine ([], "G") " a = b=c " = Except.ok ([("G", [("a", "b=c")])], "G") :=
  ⟨c6_first_eq_split [] "G" " a = b=c " (by decide) (by decide) (by decide)
    (by decide), by decide⟩

theorem parseLine_header_named (st : RawDesktopEntry × String) (g : String) :
    parseLine st ("[" ++ g ++ "]") = Except.ok (st.1, g) := by
  have hdata : ("[" ++ g ++ "]").data = '[' :: (g.data ++ [']']) := by
    rw [String.data_append, String.data_append]
    simp
  have hhead : ("[" ++ g ++ "]").data.head? = some '[' := by
    rw [hdata]; rfl
  have hlast : ("[" ++ g ++ "]").data.getLast? = some ']' := by
    rw [hdata, show '[' :: (g.data ++ [']']) = ('[' :: g.data) ++ [']'] from by simp,
      List.getLast?_concat]
  have hns : ¬ (("[" ++ g ++ "]").data = [] ∨
      ("[" ++ g ++ "]").data.head? = some '#') := by
    rw [hdata]
    rintro (h | h)
    · exact List.noConfusion h
    · rw [List.head?_cons] at h
      exact absurd h (by decide)
  have hname : headerName ("[" ++ g ++ "]") = g := by
    unfold headerName
    rw [hdata, List.drop_one, List.tail_cons, List.dropLast_concat]
  rw [parseLine_header st _ hns ⟨hhead, hlast⟩, hname]

theorem parseLine_ok_group (st st' : RawDesktopEntry × String) (line : String)
    (hnh : ¬ (line.data.head? = some '[' ∧ line.data.getLast? = some ']'))
    (h : parseLine st line = Except.ok st') : st'.2 = st.2 := by
  by_cases hs : (line.data = [] ∨ line.data.head? = some '#')
  · rw [parseLine_skip st line hs] at h
    injection h with h2
    rw [← h2]
  · by_cases hc : st.2 = ""
    · rw [parseLine_outside st line hs hnh hc] at h
      exact Except.noConfusion h
    · by_cases he : '=' ∈ line.data
      · rw [parseLine_kv st line hs hnh hc he] at h
        injection h with h2
        rw [← h2]
      · rw [parseLine_noeq st line hs hnh hc he] at h
        exact Except.noConfusion h

theorem parseAux_dup_header (props1 : List String) :
    ∀ (gs : RawDesktopEntry) (g : String) (props2 : List String),
      (∀ l ∈ props1, ¬ (l.data.head? = some '[' ∧ l.data.getLast? = some ']')) →
      parseAux (gs, g) (props1 ++ ("[" ++ g ++ "]") :: props2) =
        parseAux (gs, g) (props1 ++ props2) := by
  induction props1 with
  | nil =>
    intro gs g props2 _
    rw [List.nil_append, List.nil_append,
      parseAux_cons_ok (gs, g) (gs, g) _ props2 (parseLine_header_named (gs, g) g)]
  | cons x props1 ih =>
    intro gs g props2 hnh
    rw [List.cons_append, List.cons_append]
    cases h : parseLine (gs, g) x with
    | ok st' =>
      have hgrp : st'.2 = g := parseLine_ok_group (gs, g) st' x
        (hnh x (List.mem_cons_self _ _)) h
      obtain ⟨gs', c'⟩ := st'
      rw [parseAux_cons_ok _ (gs', c') _ _ h, parseAux_cons_ok _ (gs', c') _ _ h]
      cases hgrp
      exact ih gs' c' props2 (fun l hl => hnh l (List.mem_cons_of_mem _ hl))
    | error e =>
      rw [parseAux_cons_error _ _ _ e h, parseAux_cons_error _ _ _ e h]

theorem kvGet_kvInsert (m : KVMap) (k v : String) :
    kvGet (kvInsert m k v) k = some v := by
  induction m with
  | nil => simp [kvInsert, kvGet]
  | cons x rest ih =>
    obtain ⟨k', v'⟩ := x
    by_cases h : k' = k
    · simp only [kvInsert]
      rw [if_pos h]
      simp [kvGet]
    · simp only [kvInsert]
      rw [if_neg h]
      simp only [kvGet]
      rw [if_neg h]
      exact ih

theorem kvGet_kvInsert_ne (m : KVMap) (k' v' k : String) (h : ¬ k' = k) :
    kvGet (kvInsert m k' v') k = kvGet m k := by
  induction m with
  | nil => simp [kvInsert, kvGet, h]
  | cons x rest ih =>
    obtain ⟨a, b⟩ := x
    by_cases ha : a = k'
    · have hak : ¬ a = k := fun hh => h (ha.symm.trans hh)
      simp only [kvInsert]
      rw [if_pos ha]
      simp only [kvGet]
      rw [if_neg h, if_neg hak]
    · simp only [kvInsert]
      rw [if_neg ha]
      simp only [kvGet]
      by_cases hak : a = k
      · rw [if_pos hak, if_pos hak]
      · rw [if_neg hak, if_neg hak]
        exact ih

theorem rawGet_rawInsert (gs : RawDesktopEntry) (name k v n : String) :
    rawGet (rawInsert gs name k v) n =
      if name = n then some (kvInsert ((rawGet gs n).getD []) k v)
      else rawGet gs n := by
  induction gs with
  | nil =>
    by_cases hn : name = n
    · simp [rawInsert, rawGet, kvInsert, hn]
    · simp [rawInsert, rawGet, hn]
  | cons x rest ih =>
    obtain ⟨g, m⟩ := x
    by_cases hg : g = name
    · simp only [rawInsert]
      rw [if_pos hg]
      by_cases hn : name = n
      · have hL : rawGet ((g, kvInsert m k v) :: rest) n = some (kvInsert m k v) := by
          simp only [rawGet]
          rw [if_pos (hg.trans hn)]
        have hR : rawGet ((g, m) :: rest) n = some m := by
          simp only [rawGet]
          rw [if_pos (hg.trans hn)]
        rw [hL, if_pos hn, hR]
        rfl
      · have hgn : ¬ g = n := fun hh => hn (hg.symm.trans hh)
        have hL : rawGet ((g, kvInsert m k v) :: rest) n = rawGet rest n := by
          simp only [rawGet]
          rw [if_neg hgn]
        have hR : rawGet ((g, m) :: rest) n = rawGet rest n := by
          simp only [rawGet]
          rw [if_neg hgn]
        rw [hL, if_neg hn, hR]
    · simp only [rawInsert]
      rw [if_neg hg]
      by_cases hgn : g = n
      · have hnn : ¬ name = n := fun hh => hg (hgn.trans hh.symm)
        have hL : rawGet ((g, m) :: rawInsert rest name k v) n = some m := by
          simp only [rawGet]
          rw [if_pos hgn]
        have hR : rawGet ((g, m) :: rest) n = some m := by
          simp only [rawGet]
          rw [if_pos hgn]
        rw [hL, if_neg hnn, hR]
      · have hL : rawGet ((g, m) :: rawInsert rest name k v) n =
            rawGet (rawInsert rest name k v) n := by
          simp only [rawGet]
          rw [if_neg hgn]
        have hR : rawGet ((g, m) :: rest) n = rawGet rest n := by
          simp only [rawGet]
          rw [if_neg hgn]
        rw [hL, hR]
        exact ih

theorem applyProps_append (m0 : Option KVMap) (xs ys : List (String × String)) :
    applyProps m0 (xs ++ ys) = applyProps (applyProps m0 xs) ys := by
  simp [applyProps, List.foldl_append]

theorem applyProps_some (ps : List (String × String)) :
    ∀ m : KVMap, applyProps (some m) ps = some (insertAll m ps) := by
  induction ps with
  | nil =>
    intro m
    rfl
  | cons p ps ih =>
    intro m
    obtain ⟨k, v⟩ := p
    exact ih (kvInsert m k v)

theorem kvGet_insertAll_not_mem (ps : List (String × String)) (k : String) :
    ∀ m0 : KVMap, (∀ p ∈ ps, p.1 ≠ k) → kvGet (insertAll m0 ps) k = kvGet m0 k := by
  induction ps with
  | nil =>
    intro m0 _
    rfl
  | cons p ps ih =>
    intro m0 hne
    obtain ⟨k', v'⟩ := p
    rw [show insertAll m0 ((k', v') :: ps) = insertAll (kvInsert m0 k' v') ps from rfl]
    rw [ih (kvInsert m0 k' v') (fun q hq => hne q (List.mem_cons_of_mem _ hq))]
    exact kvGet_kvInsert_ne m0 k' v' k (hne (k', v') (List.mem_cons_self _ _))

theorem parseAux_rawGet (lines : List String) :
    ∀ (gs : RawDesktopEntry) (c : String) (st' : RawDesktopEntry × String),
      parseAux (gs, c) lines = Except.ok st' →
      ∀ n, rawGet st'.1 n = applyProps (rawGet gs n) (propsUnder n c lines) := by
  induction lines with
  | nil =>
    intro gs c st' h n
    rw [parseAux_nil] at h
    injection h with h2
    rw [← h2]
    rfl
  | cons l ls ih =>
    intro gs c st' h n
    by_cases hs : (l.data = [] ∨ l.data.head? = some '#')
    · rw [parseAux_cons_ok _ _ _ _ (parseLine_skip (gs, c) l hs)] at h
      rw [show propsUnder n c (l :: ls) = propsUnder n c ls from by
        simp only [propsUnder]; rw [if_pos hs]]
      exact ih gs c st' h n
    · by_cases hh : (l.data.head? = some '[' ∧ l.data.getLast? = some ']')
      · rw [parseAux_cons_ok _ _ _ _ (parseLine_header (gs, c) l hs hh)] at h
        rw [show propsUnder n c (l :: ls) = propsUnder n (headerName l) ls from by
          simp only [propsUnder]; rw [if_neg hs, if_pos hh]]
        exact ih gs (headerName l) st' h n
      · by_cases hc : c = ""
        · rw [parseAux_cons_error _ _ _ _ (parseLine_outside (gs, c) l hs hh hc)] at h
          exact Except.noConfusion h
        · by_cases he : '=' ∈ l.data
          · rw [parseAux_cons_ok _ _ _ _ (parseLine_kv (gs, c) l hs hh hc he)] at h
            rw [ih _ c st' h n]
            by_cases hn : c = n
            · rw [show propsUnder n c (l :: ls) =
                  (rustTrim (String.mk (l.data.takeWhile (fun ch => ch != '='))),
                   rustTrim (String.mk ((l.data.dropWhile (fun ch => ch != '=')).tail))) ::
                    propsUnder n c ls from by
                simp only [propsUnder]
                rw [if_neg hs, if_neg hh, if_pos hn, splitn2Eq_of_mem l he]
                rfl]
              rw [show applyProps (rawGet gs n)
                  ((rustTrim (String.mk (l.data.takeWhile (fun ch => ch != '='))),
                    rustTrim (String.mk ((l.data.dropWhile (fun ch => ch != '=')).tail))) ::
                    propsUnder n c ls) =
                  applyProps (some (kvInsert ((rawGet gs n).getD [])
                    (rustTrim (String.mk (l.data.takeWhile (fun ch => ch != '='))))
                    (rustTrim (String.mk ((l.data.dropWhile (fun ch => ch != '=')).tail)))))
                    (propsUnder n c ls) from rfl]
              rw [rawGet_rawInsert gs c
                  (rustTrim (String.mk (l.data.takeWhile (fun ch => ch != '='))))
                  (rustTrim (String.mk ((l.data.dropWhile (fun ch => ch != '=')).tail))) n,
                if_pos hn]
            · rw [show propsUnder n c (l :: ls) = propsUnder n c ls from by
                simp only [propsUnder]; rw [if_neg hs, if_neg hh, if_neg hn]]
              rw [rawGet_rawInsert gs c
                  (rustTrim (String.mk (l.data.takeWhile (fun ch => ch != '='))))
                  (rustTrim (String.mk ((l.data.dropWhile (fun ch => ch != '=')).tail))) n,
                if_neg hn]
          · rw [parseAux_cons_error _ _ _ _ (parseLine_noeq (gs, c) l hs hh hc he)] at h
            exact Except.noConfusion h

/-- C7: re-declaring a group name merges all of its property lines into a
single group entry: (1) on every successful parse, each group `n` of the
result is exactly the fold of insertions of the property lines occurring
under `n`, in line order, wherever in the input they occur and however many
header lines re-open `n` (absent when no line occurs under `n`); hence
(2) two successfully parsed inputs whose per-group property-line sequences
agree — such as one declaring a group by two separate headers around other
groups and one listing all its property lines under a single header —
yield the same raw mapping (pointwise-equal lookups); and (3) for a key
assigned more than once within the same group, the last occurrence in line
order determines the stored value. -/
theorem c7_group_merge_last_wins :
    (∀ (lines : List String) (gs : RawDesktopEntry) (n : String),
      parseLines lines = Except.ok gs →
      rawGet gs n = applyProps none (propsUnder n "" lines)) ∧
    (∀ (lines₁ lines₂ : List String) (gs₁ gs₂ : RawDesktopEntry),
      parseLines lines₁ = Except.ok gs₁ → parseLines lines₂ = Except.ok gs₂ →
      (∀ n, propsUnder n "" lines₁ = propsUnder n "" lines₂) →
      ∀ n, rawGet gs₁ n = rawGet gs₂ n) ∧
    (∀ (lines : List String) (gs : RawDesktopEntry) (n : String) (m : KVMap)
        (ps₁ ps₂ : List (String × String)) (k v : String),
      parseLines lines = Except.ok gs → rawGet gs n = some m →
      propsUnder n "" lines = ps₁ ++ (k, v) :: ps₂ →
      (∀ p ∈ ps₂, p.1 ≠ k) → kvGet m k = some v) := by
  have key : ∀ (lines : List String) (gs : RawDesktopEntry) (n : String),
      parseLines lines = Except.ok gs →
      rawGet gs n = applyProps none (propsUnder n "" lines) := by
    intro lines gs n h
    obtain ⟨c, hc⟩ := (parseLines_ok_iff lines gs).mp h
    exact parseAux_rawGet lines [] "" (gs, c) hc n
  refine ⟨key, fun l₁ l₂ g₁ g₂ h₁ h₂ hp n => ?_,
    fun lines gs n m ps₁ ps₂ k v h hm hps hne => ?_⟩
  · rw [key l₁ g₁ n h₁, key l₂ g₂ n h₂, hp n]
  · have h0 := key lines gs n h
    rw [hm, hps, applyProps_append] at h0
    rw [show applyProps (applyProps none ps₁) ((k, v) :: ps₂) =
        applyProps (some (kvInsert ((applyProps none ps₁).getD []) k v)) ps₂
        from rfl] at h0
    rw [applyProps_some] at h0
    injection h0 with h0
    rw [h0, kvGet_insertAll_not_mem ps₂ k _ hne]
    exact kvGet_kvInsert ((applyProps none ps₁).getD []) k v

/-- C7 witness: group `G` is re-declared around the intervening group `H`
and still accumulates into one entry equal to the fold of its property
lines; the input with both of G's lines under a single header gives the
same mapping pointwise; and a key bound twice under the same group stores
the later value. -/
theorem c7_group_merge_last_wins_witness :
    rawGet [("G", [("a", "1"), ("b", "2")]), ("H", [("x", "y")])] "G" =
        applyProps none (propsUnder "G" "" ["[G]", "a=1", "[H]", "x=y", "[G]", "b=2"]) ∧
      (∀ n, rawGet [("G", [("a", "1"), ("b", "2")]), ("H", [("x", "y")])] n =
          rawGet [("G", [("a", "1"), ("b", "2")]), ("H", [("x", "y")])] n) ∧
      kvGet [("k", "2")] "k" = some "2" :=
  ⟨c7_group_merge_last_wins.1 ["[G]", "a=1", "[H]", "x=y", "[G]", "b=2"]
      [("G", [("a", "1"), ("b", "2")]), ("H", [("x", "y")])] "G" (by decide),
   c7_group_merge_last_wins.2.1 ["[G]", "a=1", "[H]", "x=y", "[G]", "b=2"]
      ["[G]", "a=1", "b=2", "[H]", "x=y"]
      [("G", [("a", "1"), ("b", "2")]), ("H", [("x", "y")])]
      [("G", [("a", "1"), ("b", "2")]), ("H", [("x", "y")])]
      (by decide) (by decide)
      (by
        intro n
        by_cases hG : "G" = n
        · subst hG
          decide
        · by_cases hH : "H" = n
          · subst hH
            decide
          · simp +decide [propsUnder, hG, hH,
              show headerName "[G]" = "G" from by decide,
              show headerName "[H]" = "H" from by decide]),
   c7_group_merge_last_wins.2.2 ["[G]", "k=1", "[G]", "k=2"] [("G", [("k", "2")])]
      "G" [("k", "2")] [("k", "1")] [] "k" "2" (by decide) (by decide) (by decide)
      (by decide)⟩

theorem rawInsert_mem (gs : RawDesktopEntry) (name k v : String) (p : String × KVMap) :
    p ∈ rawInsert gs name k v → p.1 = name ∨ p ∈ gs := by
  induction gs with
  | nil =>
    intro h
    simp only [rawInsert, List.mem_singleton] at h
    left
    rw [h]
  | cons x rest ih =>
    obtain ⟨n, mm⟩ := x
    intro h
    by_cases hn : n = name
    · simp only [rawInsert] at h
      rw [if_pos hn] at h
      rcases List.mem_cons.mp h with h1 | h1
      · left
        rw [h1]
        exact hn
      · right
        exact List.mem_cons_of_mem _ h1
    · simp only [rawInsert] at h
      rw [if_neg hn] at h
      rcases List.mem_cons.mp h with h1 | h1
      · right
        rw [h1]
        exact List.mem_cons_self _ _
      · rcases ih h1 with h2 | h2
        · left
          exact h2
        · right
          exact List.mem_cons_of_mem _ h2

theorem parseLine_preserves_nonempty (st st' : RawDesktopEntry × String)
    (line : String) (h : parseLine st line = Except.ok st')
    (hinv : ∀ m, ("", m) ∉ st.1) : ∀ m, ("", m) ∉ st'.1 := by
  by_cases hs : (line.data = [] ∨ line.data.head? = some '#')
  · rw [parseLine_skip st line hs] at h
    injection h with h2
    rw [← h2]
    exact hinv
  · by_cases hh : (line.data.head? = some '[' ∧ line.data.getLast? = some ']')
    · rw [parseLine_header st line hs hh] at h
      injection h with h2
      rw [← h2]
      exact hinv
    · by_cases hc : st.2 = ""
      · rw [parseLine_outside st line hs hh hc] at h
        exact Except.noConfusion h
      · by_cases he : '=' ∈ line.data
        · rw [parseLine_kv st line hs hh hc he] at h
          injection h with h2
          rw [← h2]
          intro m hm
          rcases rawInsert_mem st.1 st.2 _ _ ("", m) hm with h1 | h1
          · exact hc h1.symm
          · exact hinv m h1
        · rw [parseLine_noeq st line hs hh hc he] at h
          exact Except.noConfusion h

theorem parseAux_groups_nonempty (lines : List String) :
    ∀ (gs : RawDesktopEntry) (c : String) (st' : RawDesktopEntry × String),
      parseAux (gs, c) lines = Except.ok st' →
      (∀ m, ("", m) ∉ gs) → ∀ m, ("", m) ∉ st'.1 := by
  induction lines with
  | nil =>
    intro gs c st' h hinv
    rw [parseAux_nil] at h
    injection h with h2
    rw [← h2]
    exact hinv
  | cons l ls ih =>
    intro gs c st' h hinv
    cases hl : parseLine (gs, c) l with
    | error e =>
      rw [parseAux_cons_error _ _ _ _ hl] at h
      exact Except.noConfusion h
    | ok st1 =>
      rw [parseAux_cons_ok _ _ _ _ hl] at h
      have hinv1 : ∀ m, ("", m) ∉ st1.1 :=
        parseLine_preserves_nonempty (gs, c) st1 l hl hinv
      obtain ⟨gs1, c1⟩ := st1
      exact ih gs1 c1 st' h hinv1

theorem parseAux_empty_group_stays (mid : List String) :
    ∀ gs, (∀ m ∈ mid, (m.data = [] ∨ m.data.head? = some '#') ∨ m = "[]") →
      parseAux (gs, "") mid = Except.ok (gs, "") := by
  induction mid with
  | nil =>
    intro gs _
    exact parseAux_nil _
  | cons x rest ih =>
    intro gs hm
    rcases hm x (List.mem_cons_self _ _) with hx | hx
    · rw [parseAux_cons_ok _ (gs, "") _ _ (parseLine_skip (gs, "") x hx)]
      exact ih gs (fun m h => hm m (List.mem_cons_of_mem _ h))
    · subst hx
      rw [parseAux_cons_ok _ (gs, "") _ _
        (show parseLine (gs, "") "[]" = Except.ok (gs, "") from rfl)]
      exact ih gs (fun m h => hm m (List.mem_cons_of_mem _ h))

/-- C9: a successful run of the raw parser never returns a mapping with a
group named by the empty string; and a header line `[]` resets the current
group name to the empty string, indistinguishable from no group having been
opened, so a property line that follows `[]` with only skippable lines or
further `[]` headers in between (after a prefix that parses without error)
fails with the outside-of-group FormatError. -/
theorem c9_no_empty_group :
    (∀ (lines : List String) (gs : RawDesktopEntry),
      parseLines lines = Except.ok gs → ∀ m, ("", m) ∉ gs) ∧
    (∀ (pre mid post : List String) (l : String) (st : RawDesktopEntry × String),
      parseAux ([], "") pre = Except.ok st →
      (∀ m ∈ mid, (m.data = [] ∨ m.data.head? = some '#') ∨ m = "[]") →
      ¬ (l.data = [] ∨ l.data.head? = some '#') →
      ¬ (l.data.head? = some '[' ∧ l.data.getLast? = some ']') →
      parseLines (pre ++ "[]" :: (mid ++ l :: post)) =
        Except.error (Error.FormatError "Entry found outside of group")) := by
  constructor
  · intro lines gs h m
    obtain ⟨c, hc⟩ := (parseLines_ok_iff lines gs).mp h
    exact parseAux_groups_nonempty lines [] "" (gs, c) hc
      (fun m' h' => absurd h' (List.not_mem_nil _)) m
  · intro pre mid post l st hpre hmid hls hlh
    unfold parseLines
    rw [parseAux_append, hpre]
    obtain ⟨gs0, c0⟩ := st
    rw [show (Except.ok (gs0, c0)).bind
        (fun st' => parseAux st' ("[]" :: (mid ++ l :: post))) =
        parseAux (gs0, c0) ("[]" :: (mid ++ l :: post)) from rfl]
    rw [parseAux_cons_ok _ (gs0, "") _ _
      (show parseLine (gs0, c0) "[]" = Except.ok (gs0, "") from rfl)]
    rw [parseAux_append, parseAux_empty_group_stays mid gs0 hmid]
    rw [show (Except.ok (gs0, "")).bind (fun st' => parseAux st' (l :: post)) =
        parseAux (gs0, "") (l :: post) from rfl]
    rw [parseAux_cons_error _ _ _ _ (parseLine_outside (gs0, "") l hls hlh rfl)]
    rfl

/-- C9 witness: the invariant applied to the parse of `[x]` `a=b`, and the
outside-of-group failure after `[x]` `a=b` `[]` (comment and blank lines in
between) on the property line `k=v`. -/
theorem c9_no_empty_group_witness :
    (∀ m, ("", m) ∉ ([("x", [("a", "b")])] : RawDesktopEntry)) ∧
      parseLines (["[x]", "a=b"] ++ "[]" :: (["", "# note", "[]"] ++ "k=v" :: [])) =
        Except.error (Error.FormatError "Entry found outside of group") :=
  ⟨c9_no_empty_group.1 ["[x]", "a=b"] [("x", [("a", "b")])] (by decide),
   c9_no_empty_group.2 ["[x]", "a=b"] ["", "# note", "[]"] [] "k=v"
     ([("x", [("a", "b")])], "x") (by decide) (by decide) (by decide) (by decide)⟩

/-- C2: the typed projector fails with a FormatError whenever the raw
mapping has no group named exactly `Desktop Entry`, or that group has no
`Type` key, or the `Type` value is none of `Application`, `Link`,
`Directory`; in the last case the message contains the offending value
verbatim. -/
theorem c2_projector_failures (raw : RawDesktopEntry) :
    (rawGet raw "Desktop Entry" = none →
      ∃ msg, DesktopEntryType.tryFrom raw = Except.error (Error.FormatError msg)) ∧
    (∀ grp, rawGet raw "Desktop Entry" = some grp → kvGet grp "Type" = none →
      ∃ msg, DesktopEntryType.tryFrom raw = Except.error (Error.FormatError msg)) ∧
    (∀ grp ty, rawGet raw "Desktop Entry" = some grp → kvGet grp "Type" = some ty →
      ty ≠ "Application" → ty ≠ "Link" → ty ≠ "Directory" →
      ∃ p s, DesktopEntryType.tryFrom raw =
        Except.error (Error.FormatError (p ++ ty ++ s))) := by
  refine ⟨fun h => ⟨"Desktop entry group missing!", ?_⟩,
    fun grp h hT => ⟨"Entry type missing!", ?_⟩,
    fun grp ty h hT hA hL hD => ⟨"Unknown entry type ", "", ?_⟩⟩
  · simp [DesktopEntryType.tryFrom, h]
  · simp [DesktopEntryType.tryFrom, h, hT]
  · simp [DesktopEntryType.tryFrom, h, hT, hA, hL, hD]

/-- C2 witness: the three failure shapes at concrete raw mappings; for
`Type=Widget` the message contains `Widget`. -/
theorem c2_projector_failures_witness :
    (∃ msg, DesktopEntryType.tryFrom [] = Except.error (Error.FormatError msg)) ∧
    (∃ msg, DesktopEntryType.tryFrom [("Desktop Entry", [])] =
      Except.error (Error.FormatError msg)) ∧
    (∃ p s, DesktopEntryType.tryFrom [("Desktop Entry", [("Type", "Widget")])] =
      Except.error (Error.FormatError (p ++ "Widget" ++ s))) :=
  ⟨(c2_projector_failures []).1 (by decide),
   (c2_projector_failures [("Desktop Entry", [])]).2.1 [] (by decide) (by decide),
   (c2_projector_failures [("Desktop Entry", [("Type", "Widget")])]).2.2
     [("Type", "Widget")] "Widget" (by decide) (by decide) (by decide) (by decide)
     (by decide)⟩

/-- C3: a raw mapping whose `Desktop Entry` group holds exactly
`Type=Application` and `Name=Foo` projects to an Application entry named
`Foo` with every optional field (string and boolean alike) absent. -/
theorem c3_minimal_application (raw : RawDesktopEntry) (grp : KVMap)
    (h : rawGet raw "Desktop Entry" = some grp)
    (hT : kvGet grp "Type" = some "Application")
    (hN : kvGet grp "Name" = some "Foo")
    (hO : ∀ k, k ≠ "Type" → k ≠ "Name" → kvGet grp k = none) :
    DesktopEntryType.tryFrom raw =
      Except.ok (DesktopEntryType.Application
        ⟨none, "Foo", none, none, none, none, none, none, none, none, none,
         none, none, none, none, none, none, none, none, none, none⟩) := by
  have k01 := hO "Version" (by decide) (by decide)
  have k02 := hO "GenericName" (by decide) (by decide)
  have k03 := hO "NoDisplay" (by decide) (by decide)
  have k04 := hO "Comment" (by decide) (by decide)
  have k05 := hO "Icon" (by decide) (by decide)
  have k06 := hO "Hidden" (by decide) (by decide)
  have k07 := hO "OnlyShowIn" (by decide) (by decide)
  have k08 := hO "NotShowIn" (by decide) (by decide)
  have k09 := hO "TryExec" (by decide) (by decide)
  have k10 := hO "Exec" (by decide) (by decide)
  have k11 := hO "Path" (by decide) (by decide)
  have k12 := hO "Terminal" (by decide) (by decide)
  have k13 := hO "Actions" (by decide) (by decide)
  have k14 := hO "MimeType" (by decide) (by decide)
  have k15 := hO "Categories" (by decide) (by decide)
  have k16 := hO "Keywords" (by decide) (by decide)
  have k17 := hO "StartupNotify" (by decide) (by decide)
  have k18 := hO "StartupWMClass" (by decide) (by decide)
  have k19 := hO "PrefersNonDefaultGPU" (by decide) (by decide)
  have k20 := hO "SingleMainWindow" (by decide) (by decide)
  simp [DesktopEntryType.tryFrom, ApplicationDesktopEntry.tryFrom, getBool, h,
    hT, hN, k01, k02, k03, k04, k05, k06, k07, k08, k09, k10, k11, k12, k13,
    k14, k15, k16, k17, k18, k19, k20, Except.map]

/-- C3 witness: the projection of the concrete two-key mapping. -/
theorem c3_minimal_application_witness :
    DesktopEntryType.tryFrom
        [("Desktop Entry", [("Type", "Application"), ("Name", "Foo")])] =
      Except.ok (DesktopEntryType.Application
        ⟨none, "Foo", none, none, none, none, none, none, none, none, none,
         none, none, none, none, none, none, none, none, none, none⟩) :=
  c3_minimal_application _ [("Type", "Application"), ("Name", "Foo")]
    (by decide) (by decide) (by decide)
    (fun k h1 h2 => by simp [kvGet, Ne.symm h1, Ne.symm h2])

/-- C4: optional boolean fields are lenient: an absent key gives an absent
field, a present key whose value is not a boolean literal gives the field
`some false` without raising an error; and in every variant the boolean
fields are exactly this extraction applied to their keys. -/
theorem c4_optional_bool_lenient (entry : KVMap) (key : String) (v : String) :
    (kvGet entry key = none → getBool entry key = none) ∧
    (kvGet entry key = some v → rustParseBool v = none →
      getBool entry key = some false) ∧
    (∀ app, ApplicationDesktopEntry.tryFrom entry = Except.ok app →
      app.no_display = getBool entry "NoDisplay" ∧
      app.hidden = getBool entry "Hidden" ∧
      app.terminal = getBool entry "Terminal" ∧
      app.startup_notify = getBool entry "StartupNotify" ∧
      app.prefers_non_default_gpu = getBool entry "PrefersNonDefaultGPU" ∧
      app.single_main_window = getBool entry "SingleMainWindow") ∧
    (∀ link, LinkDesktopEntry.tryFrom entry = Except.ok link →
      link.no_display = getBool entry "NoDisplay" ∧
      link.hidden = getBool entry "Hidden") ∧
    (∀ dir, DirectoryDesktopEntry.tryFrom entry = Except.ok dir →
      dir.no_display = getBool entry "NoDisplay" ∧
      dir.hidden = getBool entry "Hidden") := by
  refine ⟨fun h => ?_, fun h hp => ?_, fun app h => ?_, fun link h => ?_,
    fun dir h => ?_⟩
  · simp [getBool, h]
  · simp [getBool, h, parseBoolOkAnd, hp]
  · cases hn : kvGet entry "Name" with
    | none =>
      unfold ApplicationDesktopEntry.tryFrom at h
      rw [hn] at h
      exact Except.noConfusion h
    | some name =>
      unfold ApplicationDesktopEntry.tryFrom at h
      rw [hn] at h
      injection h with h2
      rw [← h2]
      exact ⟨rfl, rfl, rfl, rfl, rfl, rfl⟩
  · cases hn : kvGet entry "Name" with
    | none =>
      unfold LinkDesktopEntry.tryFrom at h
      rw [hn] at h
      exact Except.noConfusion h
    | some name =>
      unfold LinkDesktopEntry.tryFrom at h
      rw [hn] at h
      cases hu : kvGet entry "URL" with
      | none =>
        rw [hu] at h
        exact Except.noConfusion h
      | some url =>
        rw [hu] at h
        injection h with h2
        rw [← h2]
        exact ⟨rfl, rfl⟩
  · cases hn : kvGet entry "Name" with
    | none =>
      unfold DirectoryDesktopEntry.tryFrom at h
      rw [hn] at h
      exact Except.noConfusion h
    | some name =>
      unfold DirectoryDesktopEntry.tryFrom at h
      rw [hn] at h
      injection h with h2
      rw [← h2]
      exact ⟨rfl, rfl⟩

/-- C4 witness: `Hidden=notabool` gives a `hidden` field that is
`some false` — present, not an error — while an absent `Terminal` key gives
an absent field. -/
theorem c4_optional_bool_lenient_witness :
    getBool [("Name", "n"), ("Hidden", "notabool")] "Terminal" = none ∧
      getBool [("Name", "n"), ("Hidden", "notabool")] "Hidden" = some false ∧
      (⟨none, "n", none, none, none, none, some false, none, none, none, none,
        none, none, none, none, none, none, none, none, none, none⟩ :
          ApplicationDesktopEntry).hidden =
        getBool [("Name", "n"), ("Hidden", "notabool")] "Hidden" :=
  ⟨(c4_optional_bool_lenient [("Name", "n"), ("Hidden", "notabool")]
      "Terminal" "x").1 (by decide),
   (c4_optional_bool_lenient [("Name", "n"), ("Hidden", "notabool")]
      "Hidden" "notabool").2.1 (by decide) (by decide),
   ((c4_optional_bool_lenient [("Name", "n"), ("Hidden", "notabool")]
      "Hidden" "notabool").2.2.1
      ⟨none, "n", none, none, none, none, some false, none, none, none, none,
        none, none, none, none, none, none, none, none, none, none⟩
      (by decide)).2.1⟩

/-- C5 (counterexample): for the raw mapping whose `Desktop Entry` group is
exactly `Type=Link` (no `Name`, no `URL`), the projector fails with the
`Name` message rather than the claimed `URL` message, because the `Name`
field is evaluated first. -/
theorem c5_counterexample :
    rawGet [("Desktop Entry", [("Type", "Link")])] "Desktop Entry" =
        some [("Type", "Link")] ∧
      kvGet [("Type", "Link")] "Type" = some "Link" ∧
      kvGet [("Type", "Link")] "URL" = none ∧
      DesktopEntryType.tryFrom [("Desktop Entry", [("Type", "Link")])] ≠
        Except.error (Error.FormatError "Missing required key \x27URL\x27") ∧
      DesktopEntryType.tryFrom [("Desktop Entry", [("Type", "Link")])] =
        Except.error (Error.FormatError "Missing required key \x27Name\x27") := by
  decide

/-- C5 (amended): for a raw mapping whose `Desktop Entry` group has
`Type=Link` and does contain a `Name` key, a missing `URL` key fails with
the FormatError naming `URL`, and a present `URL=u` succeeds with a Link
entry whose url equals `u`. (Without a `Name` key the projector reports the
missing `Name` first, as the counterexample shows.) -/
theorem c5_link_url_required (raw : RawDesktopEntry) (grp : KVMap) (n u : String)
    (h : rawGet raw "Desktop Entry" = some grp)
    (hT : kvGet grp "Type" = some "Link")
    (hN : kvGet grp "Name" = some n) :
    (kvGet grp "URL" = none →
      DesktopEntryType.tryFrom raw =
        Except.error (Error.FormatError "Missing required key \x27URL\x27")) ∧
    (kvGet grp "URL" = some u →
      ∃ link, DesktopEntryType.tryFrom raw = Except.ok (DesktopEntryType.Link link) ∧
        link.url = u) := by
  constructor
  · intro hu
    simp [DesktopEntryType.tryFrom, LinkDesktopEntry.tryFrom, h, hT, hN, hu,
      Except.map]
  · intro hu
    refine ⟨⟨kvGet grp "Version", n, kvGet grp "GenericName",
      getBool grp "NoDisplay", kvGet grp "Comment", kvGet grp "Icon",
      getBool grp "Hidden", kvGet grp "OnlyShowIn", kvGet grp "NotShowIn", u⟩,
      ?_, rfl⟩
    simp [DesktopEntryType.tryFrom, LinkDesktopEntry.tryFrom, h, hT, hN, hu,
      Except.map]

/-- C5 witness: with `Name` present, missing `URL` gives the `URL` error and
`URL=http://example.com` succeeds with that url. -/
theorem c5_link_url_required_witness :
    DesktopEntryType.tryFrom [("Desktop Entry", [("Type", "Link"), ("Name", "nm")])] =
        Except.error (Error.FormatError "Missing required key \x27URL\x27") ∧
      ∃ link, DesktopEntryType.tryFrom [("Desktop Entry",
          [("Type", "Link"), ("Name", "nm"), ("URL", "http://example.com")])] =
          Except.ok (DesktopEntryType.Link link) ∧ link.url = "http://example.com" :=
  ⟨(c5_link_url_required _ [("Type", "Link"), ("Name", "nm")] "nm" "x"
      (by decide) (by decide) (by decide)).1 (by decide),
   (c5_link_url_required _ [("Type", "Link"), ("Name", "nm"),
      ("URL", "http://example.com")] "nm" "http://example.com"
      (by decide) (by decide) (by decide)).2 (by decide)⟩

/-- C8: the typed projector depends only on the `Desktop Entry` group: two
raw mappings whose `Desktop Entry` groups are equal as mappings (pointwise
equal lookups) project to the same outcome, whatever other groups they
contain. -/
theorem c8_only_desktop_entry_group (raw₁ raw₂ : RawDesktopEntry)
    (g₁ g₂ : KVMap)
    (h₁ : rawGet raw₁ "Desktop Entry" = some g₁)
    (h₂ : rawGet raw₂ "Desktop Entry" = some g₂)
    (hk : ∀ k, kvGet g₁ k = kvGet g₂ k) :
    DesktopEntryType.tryFrom raw₁ = DesktopEntryType.tryFrom raw₂ := by
  simp only [DesktopEntryType.tryFrom, ApplicationDesktopEntry.tryFrom,
    LinkDesktopEntry.tryFrom, DirectoryDesktopEntry.tryFrom, getBool,
    h₁, h₂, hk]

/-- C8 witness: an extra unrelated group does not change the projection. -/
theorem c8_only_desktop_entry_group_witness :
    DesktopEntryType.tryFrom [("Desktop Entry",
        [("Type", "Application"), ("Name", "n")]), ("Extra", [("k", "v")])] =
      DesktopEntryType.tryFrom [("Desktop Entry",
        [("Type", "Application"), ("Name", "n")])] :=
  c8_only_desktop_entry_group
    [("Desktop Entry", [("Type", "Application"), ("Name", "n")]),
      ("Extra", [("k", "v")])]
    [("Desktop Entry", [("Type", "Application"), ("Name", "n")])]
    [("Type", "Application"), ("Name", "n")]
    [("Type", "Application"), ("Name", "n")]
    (by decide) (by decide) (fun k => rfl)

/-- C10: boolean coercion is exact and case sensitive: a present key yields
`some true` exactly when its value is the string `true`; any other present
value yields `some false`. -/
theorem c10_bool_exact_case_sensitive (entry : KVMap) (key v : String)
    (h : kvGet entry key = some v) :
    (getBool entry key = some true ↔ v = "true") ∧
    (v ≠ "true" → getBool entry key = some false) := by
  constructor
  · by_cases hv : v = "true"
    · simp [getBool, h, parseBoolOkAnd, rustParseBool, hv]
    · by_cases hf : v = "false"
      · simp [getBool, h, parseBoolOkAnd, rustParseBool, hv, hf]
      · simp [getBool, h, parseBoolOkAnd, rustParseBool, hv, hf]
  · intro hv
    by_cases hf : v = "false"
    · simp [getBool, h, parseBoolOkAnd, rustParseBool, hv, hf]
    · simp [getBool, h, parseBoolOkAnd, rustParseBool, hv, hf]

/-- C10 witness: `True`, `TRUE`, `1` and `yes` all coerce to `some false`;
only `true` gives `some true`. -/
theorem c10_bool_exact_case_sensitive_witness :
    getBool [("Hidden", "True")] "Hidden" = some false ∧
      getBool [("Hidden", "TRUE")] "Hidden" = some false ∧
      getBool [("Hidden", "1")] "Hidden" = some false ∧
      getBool [("Hidden", "yes")] "Hidden" = some false ∧
      getBool [("Hidden", "true")] "Hidden" = some true :=
  ⟨(c10_bool_exact_case_sensitive [("Hidden", "True")] "Hidden" "True"
      (by decide)).2 (by decide),
   (c10_bool_exact_case_sensitive [("Hidden", "TRUE")] "Hidden" "TRUE"
      (by decide)).2 (by decide),
   (c10_bool_exact_case_sensitive [("Hidden", "1")] "Hidden" "1"
      (by decide)).2 (by decide),
   (c10_bool_exact_case_sensitive [("Hidden", "yes")] "Hidden" "yes"
      (by decide)).2 (by decide),
   (c10_bool_exact_case_sensitive [("Hidden", "true")] "Hidden" "true"
      (by decide)).1.mpr rfl⟩

/-- C1 witness: the amended characterization applied to the concrete input
consisting of the single property line `a=b` (no header before it). -/
theorem c1_raw_parse_fails_iff_witness :
    ∃ pre l post, (["a=b"] : List String) = pre ++ l :: post ∧
      ¬ (l.data = [] ∨ l.data.head? = some '#') ∧
      ¬ (l.data.head? = some '[' ∧ l.data.getLast? = some ']') ∧
      (currentAfter "" pre = "" ∨ ¬ '=' ∈ l.data) :=
  (c1_raw_parse_fails_iff ["a=b"]).mp ⟨"Entry found outside of group", by decide⟩
